import Mathlib

/-!
Verification development for the fossil knowledge-intelligence engine.

The JavaScript sources (src/utils/tokenizer.js, autolink.js, graph.js,
constants.js, intelligence.js) are shallowly embedded below.  JS numbers are
modelled as rationals (ℚ), timestamps as integers (milliseconds), JS `Set`s of
tokens as duplicate-free lists in insertion order, and JS `Map`s as association
lists with `Map.set` replace-in-place semantics.  Transcendental library calls
(`Math.log`, `Math.exp`, `Math.cos`, `Math.sin`, `Math.sqrt`, `Math.PI`) are
threaded as explicit function parameters, and the ambient `Math.random` draw
and clock become explicit arguments, so every function is pure and executable.
Loops whose termination is not structural carry an explicit fuel argument;
where the JS loop always terminates the callers pass a fuel that exceeds the
loop's iteration count, and where it can diverge (the `reentryOf` chain walk)
running out of fuel yields `none`.
-/

/-- Model of JS `String.prototype.toLowerCase` restricted to ASCII letters
(the tokenizer's character class is ASCII-only, so this is the only case that
can influence a match). -/
def jsToLower (c : Char) : Char :=
  if 'A' ≤ c ∧ c ≤ 'Z' then Char.ofNat (c.toNat + 32) else c

/-- Characters matching `[a-z0-9]` (the mandatory first character of the
tokenizer regex). -/
def isAlnumLower (c : Char) : Bool :=
  ('a' ≤ c && c ≤ 'z') || ('0' ≤ c && c ≤ '9')

/-- Characters matching `[a-z0-9'-]` (the continuation class of the tokenizer
regex). -/
def isClassChar (c : Char) : Bool :=
  isAlnumLower c || c = '-' || c = '\''

/-- Builds the matched token from its first character and the greedy run that
follows it. -/
def tokStr (c0 : Char) (run : List Char) : String :=
  String.mk (c0 :: run)

/-- Single left-to-right pass implementing the global regex scan
`s.match(/[a-z0-9][a-z0-9'-]{2,}/g)`.  The state is `none` outside a candidate
match and `some (c0, run)` when a match candidate started at `c0` and has
greedily collected `run` so far; a candidate is emitted when it ends with at
least two continuation characters, exactly as the `{2,}` quantifier demands.
A character that ends a candidate run cannot itself start one (it is outside
the class), so the scan never needs to back up. -/
def scanGo : Option (Char × List Char) → List Char → List String
  | none, [] => []
  | some (c0, run), [] => if 2 ≤ run.length then [tokStr c0 run] else []
  | none, c :: rest =>
    if isAlnumLower c then scanGo (some (c, [])) rest else scanGo none rest
  | some (c0, run), c :: rest =>
    if isClassChar c then scanGo (some (c0, run ++ [c])) rest
    else (if 2 ≤ run.length then [tokStr c0 run] else []) ++ scanGo none rest

/-- Model of inserting into a JS `Set` (first occurrence wins, insertion order
preserved). -/
def insertOrdered (l : List String) (t : String) : List String :=
  if t ∈ l then l else l ++ [t]

/-- Token sets are modelled as duplicate-free lists in insertion order. -/
abbrev Toks := List String

/-- Embedding of `tokenize` from tokenizer.js: lowercase the input, collect the
regex matches into a set.  `none` models an absent (`null`/`undefined`)
argument; `!s` in the source also catches the empty string. -/
def tokenize (o : Option String) : Toks :=
  match o with
  | none => []
  | some s =>
    if s = "" then []
    else (scanGo none (s.data.map jsToLower)).foldl insertOrdered []

/-- Embedding of `getJaccard` from tokenizer.js.  `none` models an absent
argument (`a?.size` short-circuits); sizes are list lengths, the intersection
is counted by iterating the smaller set, and the union size is computed as
`a.size + b.size - intersection`. -/
def getJaccard (a b : Option Toks) : ℚ :=
  match a, b with
  | some la, some lb =>
    if la.length = 0 ∨ lb.length = 0 then 0
    else
      let smaller := if la.length < lb.length then la else lb
      let larger := if la.length < lb.length then lb else la
      let intersection := smaller.countP (fun x => decide (x ∈ larger))
      let union := la.length + lb.length - intersection
      if union = 0 then 0 else (intersection : ℚ) / (union : ℚ)
  | _, _ => 0

/-- Model of JS `Math.round` (round half toward positive infinity). -/
def jsRound (q : ℚ) : ℤ := ⌊q + 1 / 2⌋

/-- Model of the JS truthiness test on a nullable string field
(`null`/`undefined` and the empty string are falsy). -/
def isTruthyOptStr (o : Option String) : Bool :=
  match o with
  | none => false
  | some s => s ≠ ""

/-- Model of `x || d` on a JS number `x` that may be `0` (or absent, which the
callers default to `0` beforehand). -/
def jsOrQ (a d : ℚ) : ℚ := if a = 0 then d else a

/-- Stable descending insertion: the new element goes before the first element
whose key is not larger, i.e. after every strictly-larger key and before every
equal key that originated later in the list. -/
def insertDesc {α β : Type} [LinearOrder β] (key : α → β) (x : α) :
    List α → List α
  | [] => [x]
  | y :: ys => if key y ≤ key x then x :: y :: ys else y :: insertDesc key x ys

/-- Stable descending sort, the unique result of JS `arr.sort((a,b) => keyB -
keyA)` under the (stable) Array.prototype.sort contract. -/
def sortDesc {α β : Type} [LinearOrder β] (key : α → β) : List α → List α
  | [] => []
  | x :: xs => insertDesc key x (sortDesc key xs)

/-- Association-list read modelling `Map.prototype.get` (`none` when the key is
absent). -/
def mapGet {α : Type} : List (String × α) → String → Option α
  | [], _ => none
  | (k, v) :: rest, key => if k = key then some v else mapGet rest key

/-- Association-list write modelling `Map.prototype.set` (replace in place,
else append). -/
def mapSet {α : Type} : List (String × α) → String → α → List (String × α)
  | [], k, v => [(k, v)]
  | (k', v') :: rest, k, v =>
    if k' = k then (k, v) :: rest else (k', v') :: mapSet rest k v

example : tokenize (some "The quick brown fox") =
    ["the", "quick", "brown", "fox"] := by decide
example : tokenize (some "I am a programmer") = ["programmer"] := by decide
example : tokenize (some "self-referential loop") =
    ["self-referential", "loop"] := by decide
example : tokenize (some "abc-") = ["abc-"] := by decide
example : getJaccard (some ["a", "b", "c"]) (some ["b", "c", "d"]) = 1 / 2 := by
  norm_num +decide [getJaccard, List.countP, List.countP.go]

/-- Record ("fossil") shape, §3 of the data model.  Timestamps
(`createdAt`, `lastRevisitedAt`, `dismissedUntil`) are epoch milliseconds;
numeric interaction counters are JS numbers (ℚ); nullable string links are
`Option String`.  Absent text is the empty string, matching the sources'
`fossil.invariant || ''` normalisation. -/
structure Fossil where
  id : String
  invariant : String
  dayKey : String
  createdAt : ℤ
  lastRevisitedAt : Option ℤ
  dismissedUntil : Option ℤ
  quality : ℚ
  reuseCount : ℚ
  reinforceCount : ℚ
  dismissCount : ℚ
  skipCount : ℚ
  deleted : Bool
  supersededBy : Option String
  reentryOf : Option String
deriving DecidableEq, Repr

/-- The token index (`Map` from record id to token set), modelled as its
`get` function. -/
abbrev TokenIndex := String → Option Toks

/-- The ubiquitous source idiom
`tokenIndex.get(fossil.id) || tokenize(fossil.invariant || '')` (an empty set
from the index is truthy, so the fallback fires only on a missing key). -/
def tokensOf (idx : TokenIndex) (f : Fossil) : Toks :=
  (idx f.id).getD (tokenize (some f.invariant))

/-- `SEMANTIC_EDGE_THRESHOLD` from constants.js. -/
def SEMANTIC_EDGE_THRESHOLD : ℚ := 30 / 100

/-- `CONFLICT_THRESHOLD_MIN` from constants.js. -/
def CONFLICT_THRESHOLD_MIN : ℚ := 25 / 100

/-- `CONFLICT_THRESHOLD_MAX` from constants.js. -/
def CONFLICT_THRESHOLD_MAX : ℚ := 85 / 100

/-- `ANTONYM_PAIRS` from constants.js. -/
def ANTONYM_PAIRS : List (String × String) :=
  [("increase", "decrease"), ("grow", "shrink"), ("always", "never"),
   ("more", "less"), ("better", "worse"), ("success", "failure"),
   ("enable", "prevent"), ("require", "optional"), ("must", "should"),
   ("accelerate", "decelerate"), ("expand", "contract"), ("simple", "complex"),
   ("fast", "slow"), ("high", "low"), ("start", "stop"), ("open", "close")]

/-- The words of `NEGATION_PATTERNS` from constants.js; each pattern is
`/\bword\b/i`. -/
def NEGATION_WORDS : List String :=
  ["not", "never", "can't", "cannot", "won't", "isn't", "aren't", "without",
   "contrary", "opposite", "fails", "doesn't"]

/-- Regex word characters (`\w`, the class `\b` is defined against). -/
def isWordChar (c : Char) : Bool :=
  isAlnumLower c || ('A' ≤ c && c ≤ 'Z') || c = '_'

/-- One step of scanning for `/\bword\b/i`: at each position, the (lowercased)
text must continue with the word, the previous character must be a non-word
character or the text start, and the character after the match must be a
non-word character or the text end.  Every `NEGATION_WORDS` entry starts and
ends with a word character, so this is exactly `\bword\b`. -/
def hasWordAt : Option Char → List Char → List Char → Bool
  | prev, text, word =>
    match text with
    | [] => false
    | c :: rest =>
      (match prev with
        | none => true
        | some p => !isWordChar p) &&
        word.isPrefixOf text &&
          (match text.drop word.length with
            | [] => true
            | d :: _ => !isWordChar d) ||
        hasWordAt (some c) rest word

/-- Model of `NEGATION_PATTERNS[i].test(text)` for the word-based patterns. -/
def testNegationWord (text word : String) : Bool :=
  hasWordAt none (text.data.map jsToLower) (word.data.map jsToLower)

/-- Model of `NEGATION_PATTERNS.some(p => p.test(text))`. -/
def hasNegation (text : String) : Bool :=
  NEGATION_WORDS.any (fun w => testNegationWord text w)

/-- Model of JS `toLowerCase` on whole strings. -/
def jsToLowerStr (s : String) : String := String.mk (s.data.map jsToLower)

/-- Structural splitter at whitespace characters: `acc` holds the reversed
characters of the piece in progress. -/
def splitGo : List Char → List Char → List String
  | acc, [] => [String.mk acc.reverse]
  | acc, c :: rest =>
    if c.isWhitespace then String.mk acc.reverse :: splitGo [] rest
    else splitGo (c :: acc) rest

/-- Model of `text.toLowerCase().split(/\s+/)`: splitting at every whitespace
character can yield extra empty pieces compared to the run-collapsing JS
regex; no antonym word is empty, so the `includes` membership checks agree. -/
def splitWS (s : String) : List String :=
  splitGo [] (s.data.map jsToLower)

/-- Embedding of `detectSemanticOpposition` from intelligence.js. -/
def detectSemanticOpposition (textA textB : String) : List (String × String) :=
  let tokensA := splitWS textA
  let tokensB := splitWS textB
  ANTONYM_PAIRS.filter (fun p =>
    (tokensA.contains p.1 && tokensB.contains p.2) ||
      (tokensA.contains p.2 && tokensB.contains p.1))

/-- One entry of the `detectConflicts` result. -/
structure Conflict where
  fossil : Fossil
  similarity : ℤ
  reason : String
  oppositions : List (String × String)
deriving DecidableEq, Repr

/-- The per-record body of the `detectConflicts` loop: skip deleted or
superseded records, require the similarity band
`CONFLICT_THRESHOLD_MIN ≤ s < CONFLICT_THRESHOLD_MAX`, then flag a negation
mismatch (reason `"negation"`) or an antonym opposition (reason
`"semantic"`). -/
def conflictFor (newInvariant : String) (newTokens : Toks)
    (newHasNegation : Bool) (idx : TokenIndex) (f : Fossil) :
    Option Conflict :=
  if f.deleted || isTruthyOptStr f.supersededBy then none
  else
    let existingTokens := tokensOf idx f
    let similarity := getJaccard (some newTokens) (some existingTokens)
    if CONFLICT_THRESHOLD_MIN ≤ similarity ∧
        similarity < CONFLICT_THRESHOLD_MAX then
      let existingHasNegation := hasNegation f.invariant
      let negationConflict := newHasNegation ≠ existingHasNegation
      let oppositions := detectSemanticOpposition newInvariant f.invariant
      if negationConflict ∨ oppositions ≠ [] then
        some ⟨f, jsRound (similarity * 100),
          if negationConflict then "negation" else "semantic", oppositions⟩
      else none
    else none

/-- Embedding of `detectConflicts` from intelligence.js: collect the flagged
records in input order, then sort by descending (rounded) similarity. -/
def detectConflicts (newInvariant : String) (existingFossils : List Fossil)
    (idx : TokenIndex) : List Conflict :=
  let newTokens := tokenize (some newInvariant)
  let newHasNegation := hasNegation newInvariant
  sortDesc (fun c => c.similarity)
    (existingFossils.filterMap
      (conflictFor newInvariant newTokens newHasNegation idx))

example : testNegationWord "this cannot work" "cannot" = true := by decide
example : testNegationWord "increase efficiency" "not" = false := by decide
example : hasNegation "requirements should increase efficiency" = false := by
  decide
example :
    detectSemanticOpposition "requirements should increase efficiency"
      "requirements should decrease efficiency" =
      [("increase", "decrease")] := by decide

/-- Embedding of `calculateDecayScore` from intelligence.js.  `now` is the
ambient `Date.now()` in milliseconds and `mlog` models `Math.log`. -/
def calculateDecayScore (f : Fossil) (allFossils : List Fossil) (now : ℤ)
    (mlog : ℚ → ℚ) : ℚ :=
  let createdAt := f.createdAt
  let daysSinceCreation : ℚ := ((now - createdAt : ℤ) : ℚ) / (1000 * 60 * 60 * 24)
  if daysSinceCreation < 7 then -999
  else
    let ageFactor := mlog (daysSinceCreation + 1) / 10
    let hasChildren :=
      allFossils.any (fun g => g.reentryOf = some f.id && !g.deleted)
    let isolationFactor : ℚ := if hasChildren then 0 else 3 / 10
    let lastRevisit := f.lastRevisitedAt.getD createdAt
    let daysSinceRevisit : ℚ := ((now - lastRevisit : ℤ) : ℚ) / (1000 * 60 * 60 * 24)
    let revisitFactor := mlog (daysSinceRevisit + 1) / 8
    let qualityBonus := (jsOrQ f.quality 2 - 2) * (2 / 10)
    let reuseBonus := min (jsOrQ f.reuseCount 0 * (1 / 10)) (1 / 2)
    let reinforceBonus := jsOrQ f.reinforceCount 0 * (15 / 100)
    ageFactor + isolationFactor + revisitFactor - qualityBonus - reuseBonus -
      reinforceBonus

/-- Embedding of `calculateEngagementScore` from intelligence.js.  `nowHour`
models `new Date().getHours()` and `hourOf` models
`new Date(timestamp).getHours()`. -/
def calculateEngagementScore (f : Fossil) (nowHour : ℤ) (hourOf : ℤ → ℤ) :
    ℚ :=
  let s0 : ℚ := 0
  let s1 := if 0 < f.reinforceCount then s0 + f.reinforceCount * (3 / 10) else s0
  let s2 := if 0 < f.reuseCount then s1 + f.reuseCount * (2 / 10) else s1
  let s3 := if 4 ≤ f.quality then s2 + 2 / 10 else s2
  let s4 := if 2 < f.dismissCount then s3 - 3 / 10 else s3
  let s5 := if 3 < f.skipCount then s4 - 2 / 10 else s4
  match f.lastRevisitedAt with
  | none => s5
  | some t => if |nowHour - hourOf t| ≤ 2 then s5 + 1 / 10 else s5

/-- The resurface eligibility filter shared by `selectResurfaceFossil` and
`selectContextualResurface`: not deleted, captured on another day, dismissal
expired (or never dismissed), not superseded. -/
def eligibleForResurface (todayKey : String) (now : ℤ) (f : Fossil) : Bool :=
  !f.deleted && f.dayKey ≠ todayKey &&
    (match f.dismissedUntil with
      | none => true
      | some d => d ≤ now) &&
    !isTruthyOptStr f.supersededBy

/-- A record paired with its decay score. -/
structure ScoredR where
  fossil : Fossil
  score : ℚ
deriving DecidableEq, Repr

/-- The weighted-random walk over the top candidates: subtract each
candidate's weight `exp(score)` from the draw and return the first candidate
that brings it to (or below) zero. -/
def pickLoop (mexp : ℚ → ℚ) : ℚ → List ScoredR → Option Fossil
  | _, [] => none
  | random, s :: rest =>
    let random' := random - mexp s.score
    if random' ≤ 0 then some s.fossil else pickLoop mexp random' rest

/-- Embedding of `selectResurfaceFossil` from intelligence.js.  `r` models the
`Math.random()` draw in `[0,1)`, `mexp` models `Math.exp`. -/
def selectResurfaceFossil (fossils : List Fossil) (todayKey : String)
    (now : ℤ) (r : ℚ) (mlog mexp : ℚ → ℚ) : Option Fossil :=
  let eligible := fossils.filter (eligibleForResurface todayKey now)
  if eligible.length = 0 then none
  else
    let scored :=
      (eligible.map (fun f =>
        ScoredR.mk f (calculateDecayScore f fossils now mlog))).filter
        (fun s => -900 < s.score)
    if scored.length = 0 then none
    else
      let sorted := sortDesc (fun s => s.score) scored
      let top5 := sorted.take 5
      let totalWeight := top5.foldl (fun sum s => sum + mexp s.score) 0
      let random := r * totalWeight
      match pickLoop mexp random top5 with
      | some f => some f
      | none => top5.head?.map (fun s => s.fossil)

/-- A record with the three component scores of the contextual selector. -/
structure ScoredC where
  fossil : Fossil
  decayScore : ℚ
  contextScore : ℚ
  engagementScore : ℚ
  totalScore : ℚ
deriving DecidableEq, Repr

/-- Embedding of `selectContextualResurface` from intelligence.js: same
eligibility and sentinel filter, plus a context-similarity boost of
`2 * jaccard` when a (truthy) context string is supplied, an engagement
component, and the same weighted-random pick over the top five by total
score. -/
def selectContextualResurface (fossils : List Fossil) (idx : TokenIndex)
    (currentContext : Option String) (todayKey : String) (now : ℤ) (r : ℚ)
    (mlog mexp : ℚ → ℚ) (nowHour : ℤ) (hourOf : ℤ → ℤ) : Option Fossil :=
  let eligible := fossils.filter (eligibleForResurface todayKey now)
  if eligible.length = 0 then none
  else
    let scored :=
      (eligible.map (fun f =>
        ScoredC.mk f (calculateDecayScore f fossils now mlog) 0
          (calculateEngagementScore f nowHour hourOf) 0)).filter
        (fun s => -900 < s.decayScore)
    if scored.length = 0 then none
    else
      let scored :=
        if isTruthyOptStr currentContext then
          let contextTokens := tokenize currentContext
          scored.map (fun s =>
            let fossilTokens := tokensOf idx s.fossil
            let similarity := getJaccard (some contextTokens) (some fossilTokens)
            { s with contextScore := similarity * 2 })
        else scored
      let scored :=
        scored.map (fun s =>
          { s with totalScore := s.decayScore + s.contextScore + s.engagementScore })
      let sorted := sortDesc (fun s => s.totalScore) scored
      let top5 := sorted.take 5
      let totalWeight := top5.foldl (fun sum s => sum + mexp s.totalScore) 0
      let random := r * totalWeight
      match pickLoop mexp random (top5.map (fun s => ScoredR.mk s.fossil s.totalScore)) with
      | some f => some f
      | none => top5.head?.map (fun s => s.fossil)

/-- Embedding of `getSharedConcepts` from autolink.js: tokens of the first set
that appear in the second and are longer than 3 characters, first five. -/
def getSharedConcepts (tokensA tokensB : Toks) : List String :=
  (tokensA.filter (fun t => t ∈ tokensB && 3 < t.length)).take 5

/-- Options of `findRelatedFossils` (source defaults: `minSimilarity` 0.15,
`maxResults` 5, `excludeChain` true). -/
structure RelatedOptions where
  minSimilarity : ℚ
  maxResults : ℕ
  excludeChain : Bool
deriving Repr

/-- The source's default options object. -/
def defaultRelatedOptions : RelatedOptions :=
  ⟨15 / 100, 5, true⟩

/-- One entry of the `findRelatedFossils` result. -/
structure RelatedEntry where
  fossil : Fossil
  similarity : ℤ
  sharedConcepts : List String
deriving DecidableEq, Repr

/-- The chain-root walk of `findRelatedFossils`
(`while (root.reentryOf) { ... }`): follow `reentryOf` upwards, stopping when
the link is falsy or dangling.  The source loop has no visited set, so it need
not terminate; `fuel` counts loop iterations and `none` means the walk was
still running after `fuel` steps — `chainRootF all fuel root = none` for every
`fuel` is exactly divergence of the JS loop. -/
def chainRootF (allFossils : List Fossil) (fuel : ℕ) (root : Fossil) :
    Option Fossil :=
  match root.reentryOf with
  | none => some root
  | some pid =>
    if pid = "" then some root
    else
      match allFossils.find? (fun f => f.id = pid) with
      | none => some root
      | some parent =>
        match fuel with
        | 0 => none
        | n + 1 => chainRootF allFossils n parent

mutual
/-- The recursive `findDescendants` of `findRelatedFossils`: record the id,
then recurse into every non-deleted child.  Again the source has no visited
set; `fuel` bounds the recursion depth and `none` models exceeding it. -/
def findDescendantsF (allFossils : List Fossil) :
    ℕ → String → List String → Option (List String)
  | 0, _, _ => none
  | n + 1, id, acc =>
    descendChildren allFossils n
      (allFossils.filter (fun f => f.reentryOf = some id && !f.deleted))
      (acc ++ [id])

/-- Sequential recursion over the children found by `findDescendantsF`
(`allFossils.forEach` in the source). -/
def descendChildren (allFossils : List Fossil) (n : ℕ) :
    List Fossil → List String → Option (List String)
  | [], acc => some acc
  | f :: rest, acc =>
    match findDescendantsF allFossils n f.id acc with
    | none => none
    | some acc' => descendChildren allFossils n rest acc'
end

/-- The ranking part of `findRelatedFossils`: filter out the target itself,
deleted and superseded records and (optionally) the chain members, keep those
at least `minSimilarity` similar, sort by descending rounded similarity and
truncate. -/
def rankRelated (target : Fossil) (allFossils : List Fossil)
    (idx : TokenIndex) (targetTokens : Toks) (opts : RelatedOptions)
    (chainIds : List String) : List RelatedEntry :=
  sortDesc (fun e => e.similarity)
    (allFossils.filterMap (fun f =>
      if f.id = target.id || f.deleted || isTruthyOptStr f.supersededBy then
        none
      else if opts.excludeChain && f.id ∈ chainIds then none
      else
        let fossilTokens := tokensOf idx f
        let similarity := getJaccard (some targetTokens) (some fossilTokens)
        if opts.minSimilarity ≤ similarity then
          some ⟨f, jsRound (similarity * 100),
            getSharedConcepts targetTokens fossilTokens⟩
        else none)) |>.take opts.maxResults

/-- Embedding of `findRelatedFossils` from autolink.js.  When `excludeChain`
is set the function first walks to the chain root and collects all
descendants; both traversals lack cycle guards in the source, so the
embedding threads `fuel` through them and returns `none` when they are still
running after `fuel` steps. -/
def findRelatedFossilsF (fuel : ℕ) (target : Fossil)
    (allFossils : List Fossil) (idx : TokenIndex) (opts : RelatedOptions) :
    Option (List RelatedEntry) :=
  let targetTokens := (idx target.id).getD (tokenize (some target.invariant))
  if opts.excludeChain then
    match chainRootF allFossils fuel target with
    | none => none
    | some root =>
      match findDescendantsF allFossils fuel root.id [] with
      | none => none
      | some chainIds =>
        some (rankRelated target allFossils idx targetTokens opts chainIds)
  else some (rankRelated target allFossils idx targetTokens opts [])

/-- One cluster of the `detectClusters` result. -/
structure Cluster where
  ids : List String
  size : ℕ
  theme : List String
  fossils : List Fossil
deriving DecidableEq, Repr

/-- Adjacency rows are `{id, similarity}` neighbour records. -/
abbrev AdjList := List (String × List (String × ℚ))

/-- The inner similarity scan of `detectClusters`'s adjacency construction:
all records at a different index with similarity at least `minSimilarity`. -/
def neighborRow (validFossils : List Fossil) (idx : TokenIndex) (minSim : ℚ)
    (i : ℕ) (tokensA : Toks) : ℕ → List Fossil → List (String × ℚ)
  | _, [] => []
  | j, fB :: rest =>
    let tail := neighborRow validFossils idx minSim i tokensA (j + 1) rest
    if j = i then tail
    else
      let tokensB := tokensOf idx fB
      let similarity := getJaccard (some tokensA) (some tokensB)
      if minSim ≤ similarity then (fB.id, similarity) :: tail else tail

/-- The outer loop of `detectClusters`'s adjacency construction
(`adjacency.set(fossilA.id, neighbors)`). -/
def buildAdjacency (validFossils : List Fossil) (idx : TokenIndex)
    (minSim : ℚ) : ℕ → List Fossil → AdjList → AdjList
  | _, [], adj => adj
  | i, fA :: rest, adj =>
    let tokensA := tokensOf idx fA
    buildAdjacency validFossils idx minSim (i + 1) rest
      (mapSet adj fA.id (neighborRow validFossils idx minSim i tokensA 0 validFossils))

/-- The BFS of `detectClusters`: pop the queue head, skip visited ids,
otherwise mark visited, append to the cluster and enqueue unvisited
neighbours.  The JS `while` always terminates (each iteration pops one queue
entry, and entries are pushed only when an unvisited id is popped); the
explicit `fuel` over-approximates that iteration count at every call site and
never runs out there. -/
def bfsRun (adj : AdjList) :
    ℕ → List String → List String → List String → List String × List String
  | 0, visited, _, cluster => (cluster, visited)
  | _ + 1, visited, [], cluster => (cluster, visited)
  | fuel + 1, visited, current :: rest, cluster =>
    if current ∈ visited then bfsRun adj fuel visited rest cluster
    else
      let visited' := current :: visited
      let neighbors := (mapGet adj current).getD []
      let pushes :=
        neighbors.filterMap (fun n =>
          if n.1 ∈ visited' then none else some n.1)
      bfsRun adj fuel visited' (rest ++ pushes) (cluster ++ [current])

/-- A fuel bound that dominates the BFS iteration count: one initial queue
entry plus at most one push per adjacency entry. -/
def bfsFuel (adj : AdjList) : ℕ :=
  2 + (adj.map (fun p => p.2.length)).sum

/-- The theme extraction of `detectClusters`: count every token longer than 3
characters across the members, sort descending by count, keep three. -/
def clusterTheme (clusterFossils : List Fossil) (idx : TokenIndex) :
    List String :=
  let tokenFreq :=
    clusterFossils.foldl (fun freq f =>
      (tokensOf idx f).foldl (fun freq token =>
        if 3 < token.length then
          mapSet freq token ((mapGet freq token).getD 0 + 1)
        else freq) freq) ([] : List (String × ℕ))
  ((sortDesc (fun p => p.2) tokenFreq).take 3).map (fun p => p.1)

/-- The per-start-record loop of `detectClusters`: BFS from every unvisited
record, keep components of at least `minClusterSize` members, annotate them
with member records and theme. -/
def clustersLoop (adj : AdjList) (validFossils : List Fossil)
    (idx : TokenIndex) (minClusterSize : ℕ) :
    List Fossil → List String → List Cluster → List Cluster
  | [], _, acc => acc
  | f :: rest, visited, acc =>
    if f.id ∈ visited then clustersLoop adj validFossils idx minClusterSize rest visited acc
    else
      let res := bfsRun adj (bfsFuel adj) visited [f.id] []
      let cluster := res.1
      let visited' := res.2
      if minClusterSize ≤ cluster.length then
        let clusterFossils :=
          cluster.filterMap (fun id => validFossils.find? (fun g => g.id = id))
        let theme := clusterTheme clusterFossils idx
        clustersLoop adj validFossils idx minClusterSize rest visited'
          (acc ++ [⟨cluster, cluster.length, theme, clusterFossils⟩])
      else clustersLoop adj validFossils idx minClusterSize rest visited' acc

/-- Embedding of `detectClusters` from autolink.js. -/
def detectClusters (fossils : List Fossil) (idx : TokenIndex)
    (minClusterSize : ℕ) (minSimilarity : ℚ) : List Cluster :=
  let validFossils :=
    fossils.filter (fun f => !f.deleted && !isTruthyOptStr f.supersededBy)
  if validFossils.length < minClusterSize then []
  else
    let adj := buildAdjacency validFossils idx minSimilarity 0 validFossils []
    sortDesc (fun c => c.size)
      (clustersLoop adj validFossils idx minClusterSize validFossils [] [])

/-- Graph node as built by graph.js: rendering fields plus the embedded
record, mutable position (`x`,`y`) and the temporary velocity fields
(`vx`,`vy`), which are absent (`none`) until the layout writes them. -/
structure GNode where
  id : String
  size : ℚ
  label : String
  fossil : Fossil
  cluster : ℕ
  x : ℚ
  y : ℚ
  vx : Option ℚ
  vy : Option ℚ
deriving DecidableEq, Repr

/-- Graph edge as built by graph.js. -/
structure GEdge where
  source : String
  target : String
  etype : String
  weight : ℚ
deriving DecidableEq, Repr

/-- Node construction of `buildGraphData`: size from quality and reuse, label
a 35-character invariant prefix with ellipsis, cluster initialised to 0.  The
position fields do not exist yet in the JS object; they are initialised to 0
here and are only ever read after `layoutGraph` has written them. -/
def mkGraphNode (f : Fossil) : GNode :=
  ⟨f.id,
    8 + jsOrQ f.quality 2 * 4 + jsOrQ f.reuseCount 0 * 2,
    f.invariant.take 35 ++ (if 35 < f.invariant.length then "..." else ""),
    f, 0, 0, 0, none, none⟩

/-- The reentry edge contributed by one record: present when its (truthy)
`reentryOf` target exists among the visible records, weight fixed at 1. -/
def reentryEdges (visibleFossils : List Fossil) (fA : Fossil) : List GEdge :=
  match fA.reentryOf with
  | none => []
  | some pid =>
    if pid = "" then []
    else if visibleFossils.any (fun f => f.id = pid) then
      [⟨fA.id, pid, "reentry", 1⟩]
    else []

/-- The semantic edges from one record to the records after it: skip pairs
already linked by `reentryOf`, connect those with similarity at least
`SEMANTIC_EDGE_THRESHOLD`.  Note that graph.js reads token sets directly from
the index (`tokenIndex.get(...)` with no tokenize fallback). -/
def semanticEdges (idx : TokenIndex) (fA : Fossil) (rest : List Fossil) :
    List GEdge :=
  rest.filterMap (fun fB =>
    if fA.reentryOf = some fB.id || fB.reentryOf = some fA.id then none
    else
      let similarity := getJaccard (idx fA.id) (idx fB.id)
      if SEMANTIC_EDGE_THRESHOLD ≤ similarity then
        some ⟨fA.id, fB.id, "semantic", similarity⟩
      else none)

/-- The edge-building double loop of `buildGraphData` (outer index `i`,
reentry edge first, then semantic edges to indices `j > i`). -/
def buildEdges (visibleFossils : List Fossil) (idx : TokenIndex) :
    List Fossil → List GEdge
  | [] => []
  | fA :: rest =>
    reentryEdges visibleFossils fA ++ semanticEdges idx fA rest ++
      buildEdges visibleFossils idx rest

/-- Update the first node with the given id (helper for the last-wins
semantics below). -/
def updateFirstById (id : String) (g : GNode → GNode) :
    List GNode → List GNode
  | [] => []
  | n :: rest =>
    if n.id = id then g n :: rest else n :: updateFirstById id g rest

/-- Update the node a JS `nodeMap[id]` lookup aliases: `Object.fromEntries`
keeps the last entry per key, so mutation through the map hits the last node
with that id. -/
def updateLastById (ns : List GNode) (id : String) (g : GNode → GNode) :
    List GNode :=
  (updateFirstById id g ns.reverse).reverse

/-- Read the node a JS `nodeMap[id]` lookup aliases. -/
def getLastById (ns : List GNode) (id : String) : Option GNode :=
  ns.reverse.find? (fun n => n.id = id)

/-- The undirected adjacency map built from the edge list in
`buildGraphData`'s cluster pass. -/
def edgeAdjacency : List GEdge → List (String × List String) → List (String × List String)
  | [], adj => adj
  | e :: rest, adj =>
    let adj1 :=
      match mapGet adj e.source with
      | none => mapSet adj e.source []
      | some _ => adj
    let adj2 :=
      match mapGet adj1 e.target with
      | none => mapSet adj1 e.target []
      | some _ => adj1
    let adj3 := mapSet adj2 e.source ((mapGet adj2 e.source).getD [] ++ [e.target])
    let adj4 := mapSet adj3 e.target ((mapGet adj3 e.target).getD [] ++ [e.source])
    edgeAdjacency rest adj4

/-- The recursive `dfs` of `buildGraphData` as a worklist: pop an id, skip it
when visited, otherwise mark it, write the cluster index into the node the
id aliases, and push the neighbours in front (recursive pre-order).  The JS
recursion always terminates (visited ids are never re-entered); `fuel`
over-approximates the number of calls at every call site. -/
def dfsRun (adj : List (String × List String)) (cluster : ℕ) :
    ℕ → List String → List String → List GNode → List String × List GNode
  | 0, visited, _, ns => (visited, ns)
  | _ + 1, visited, [], ns => (visited, ns)
  | fuel + 1, visited, current :: rest, ns =>
    if current ∈ visited then dfsRun adj cluster fuel visited rest ns
    else
      let visited' := current :: visited
      let ns' := updateLastById ns current (fun n => { n with cluster })
      let neighbors := (mapGet adj current).getD []
      dfsRun adj cluster fuel visited' (neighbors ++ rest) ns'

/-- Fuel bound dominating the `dfs` call count: one initial stack entry per
start plus one push per adjacency entry. -/
def dfsFuel (adj : List (String × List String)) : ℕ :=
  2 + (adj.map (fun p => p.2.length)).sum

/-- The cluster-assignment loop of `buildGraphData`: scan the nodes in order,
run `dfs` from every unvisited id with the next cluster index. -/
def assignClusters (adj : List (String × List String)) :
    List GNode → List String → List GNode → ℕ → List GNode × ℕ
  | [], _, ns, k => (ns, k)
  | node :: rest, visited, ns, k =>
    if node.id ∈ visited then assignClusters adj rest visited ns k
    else
      let res := dfsRun adj k (dfsFuel adj) visited [node.id] ns
      assignClusters adj rest res.1 res.2 (k + 1)

/-- The `buildGraphData` result record. -/
structure GraphData where
  nodes : List GNode
  edges : List GEdge
  clusterCount : ℕ
deriving Repr

/-- Embedding of `buildGraphData` from graph.js.  The visibility filter keeps
every non-deleted record (superseded records are not excluded here). -/
def buildGraphData (fossils : List Fossil) (idx : TokenIndex) : GraphData :=
  let visibleFossils := fossils.filter (fun f => !f.deleted)
  let nodes := visibleFossils.map mkGraphNode
  let edges := buildEdges visibleFossils idx visibleFossils
  let adj := edgeAdjacency edges []
  let res := assignClusters adj nodes [] nodes 0
  ⟨res.1, edges, res.2⟩

/-- Initial placement of `layoutGraph`: nodes evenly spaced (by index) on a
circle of radius `0.35 * min(width, height)` centred in the viewport.
`mcos`/`msin` model `Math.cos`/`Math.sin` and `pi` models `Math.PI`. -/
def initNodes (width height pi : ℚ) (mcos msin : ℚ → ℚ) (n : ℕ) :
    ℕ → List GNode → List GNode
  | _, [] => []
  | i, node :: rest =>
    let angle := 2 * pi * (i : ℚ) / (n : ℚ)
    let radius := min width height * (35 / 100)
    { node with
        x := width / 2 + radius * mcos angle,
        y := height / 2 + radius * msin angle } ::
      initNodes width height pi mcos msin n (i + 1) rest

/-- The pairwise-repulsion phase of one layout iteration: every node
accumulates `k/dist²` forces from all other nodes into its velocity.  Only
positions are read and only velocities are written, so mapping over the
original list models the in-place JS loop exactly. -/
def repulsionPhase (msqrt : ℚ → ℚ) (temperature : ℚ) (nodes : List GNode) :
    List GNode :=
  nodes.map (fun nA =>
    let fs :=
      nodes.foldl (fun fxy nB =>
        if nA.id = nB.id then fxy
        else
          let dx := nA.x - nB.x
          let dy := nA.y - nB.y
          let dist := max (msqrt (dx * dx + dy * dy)) 1
          let force := 800 / (dist * dist)
          (fxy.1 + dx / dist * force, fxy.2 + dy / dist * force)) ((0 : ℚ), (0 : ℚ))
    { nA with
        vx := some (nA.vx.getD 0 + fs.1 * temperature),
        vy := some (nA.vy.getD 0 + fs.2 * temperature) })

/-- The spring-attraction phase of one layout iteration: along every edge,
apply `dist * 0.02 * weight` oppositely to both endpoint velocities.  The
endpoints are resolved through `nodeMap` (last node per id) and the updates
are applied sequentially, as the JS mutation does. -/
def attractionPhase (msqrt : ℚ → ℚ) (temperature : ℚ) (edges : List GEdge)
    (nodes : List GNode) : List GNode :=
  edges.foldl (fun ns e =>
    match getLastById ns e.source, getLastById ns e.target with
    | some nA, some nB =>
      let dx := nB.x - nA.x
      let dy := nB.y - nA.y
      let dist := max (msqrt (dx * dx + dy * dy)) 1
      let force := dist * (2 / 100) * e.weight
      let ns1 := updateLastById ns e.source (fun n =>
        { n with
            vx := some (n.vx.getD 0 + dx / dist * force * temperature),
            vy := some (n.vy.getD 0 + dy / dist * force * temperature) })
      updateLastById ns1 e.target (fun n =>
        { n with
            vx := some (n.vx.getD 0 - dx / dist * force * temperature),
            vy := some (n.vy.getD 0 - dy / dist * force * temperature) })
    | _, _ => ns) nodes

/-- The integration phase of one layout iteration: damped velocity step. -/
def integratePhase (nodes : List GNode) : List GNode :=
  nodes.map (fun n =>
    { n with
        x := n.x + n.vx.getD 0 * (1 / 10),
        y := n.y + n.vy.getD 0 * (1 / 10),
        vx := some (n.vx.getD 0 * (8 / 10)),
        vy := some (n.vy.getD 0 * (8 / 10)) })

/-- One iteration of the layout simulation. -/
def simStep (msqrt : ℚ → ℚ) (edges : List GEdge) (temperature : ℚ)
    (nodes : List GNode) : List GNode :=
  integratePhase (attractionPhase msqrt temperature edges
    (repulsionPhase msqrt temperature nodes))

/-- The iteration loop of `layoutGraph`: `remaining` counts down from
`iterations`, and the temperature of the current iteration `iter =
iterations - remaining` is `1 - iter / iterations`. -/
def simLoop (msqrt : ℚ → ℚ) (edges : List GEdge) (iterations : ℕ) :
    ℕ → List GNode → List GNode
  | 0, nodes => nodes
  | remaining + 1, nodes =>
    let iter := iterations - (remaining + 1)
    let temperature : ℚ := 1 - (iter : ℚ) / (iterations : ℚ)
    simLoop msqrt edges iterations remaining
      (simStep msqrt edges temperature nodes)

/-- `Math.min(...xs)` over a non-empty list (`0` for the empty list, which
`layoutGraph` never reaches). -/
def listMin : List ℚ → ℚ
  | [] => 0
  | x :: rest => rest.foldl min x

/-- `Math.max(...xs)` over a non-empty list. -/
def listMax : List ℚ → ℚ
  | [] => 0
  | x :: rest => rest.foldl max x

/-- The final normalisation of `layoutGraph`: uniform rescale (capped at 1)
and translate so the bounding box fits inside the padded viewport, deleting
the temporary velocity fields. -/
def normalizeNodes (nodes : List GNode) (width height : ℚ) : List GNode :=
  let padding : ℚ := 40
  let minX := listMin (nodes.map (fun n => n.x))
  let maxX := listMax (nodes.map (fun n => n.x))
  let minY := listMin (nodes.map (fun n => n.y))
  let maxY := listMax (nodes.map (fun n => n.y))
  let scaleX := if 0 < maxX - minX then (width - padding * 2) / (maxX - minX) else 1
  let scaleY := if 0 < maxY - minY then (height - padding * 2) / (maxY - minY) else 1
  let scale := min (min scaleX scaleY) 1
  nodes.map (fun n =>
    { n with
        x := padding + (n.x - minX) * scale,
        y := padding + (n.y - minY) * scale,
        vx := none,
        vy := none })

/-- Embedding of `layoutGraph` from graph.js (`iterations` defaults to 80 in
the source). -/
def layoutGraph (nodes : List GNode) (edges : List GEdge)
    (width height : ℚ) (iterations : ℕ) (mcos msin msqrt : ℚ → ℚ)
    (pi : ℚ) : List GNode :=
  if nodes.length = 0 then nodes
  else
    let placed := initNodes width height pi mcos msin nodes.length 0 nodes
    let simulated := simLoop msqrt edges iterations iterations placed
    normalizeNodes simulated width height

/-! ## Shared lemmas -/

theorem mem_insertDesc {α β : Type} [LinearOrder β] (key : α → β) (x a : α)
    (l : List α) : a ∈ insertDesc key x l ↔ a = x ∨ a ∈ l := by
  induction l with
  | nil => simp [insertDesc]
  | cons y ys ih =>
    simp only [insertDesc]
    split
    · simp
    · simp only [List.mem_cons, ih]
      tauto

theorem perm_insertDesc {α β : Type} [LinearOrder β] (key : α → β) (x : α)
    (l : List α) : List.Perm (insertDesc key x l) (x :: l) := by
  induction l with
  | nil => rfl
  | cons y ys ih =>
    simp only [insertDesc]
    split
    · rfl
    · exact (ih.cons y).trans (List.Perm.swap x y ys)

theorem perm_sortDesc {α β : Type} [LinearOrder β] (key : α → β)
    (l : List α) : List.Perm (sortDesc key l) l := by
  induction l with
  | nil => rfl
  | cons x xs ih =>
    exact (perm_insertDesc key x (sortDesc key xs)).trans (ih.cons x)

theorem mem_sortDesc {α β : Type} [LinearOrder β] (key : α → β) (a : α)
    (l : List α) : a ∈ sortDesc key l ↔ a ∈ l :=
  (perm_sortDesc key l).mem_iff

theorem countP_eq_inter_card (la lb : Toks) (hb : lb.Nodup) :
    lb.countP (fun x => decide (x ∈ la)) = (lb.toFinset ∩ la.toFinset).card := by
  rw [List.countP_eq_length_filter,
    ← List.toFinset_card_of_nodup (hb.filter (fun x => decide (x ∈ la))),
    List.toFinset_filter]
  congr 1
  ext x
  simp [Finset.mem_filter, Finset.mem_inter, List.mem_toFinset]

/-- C6: `getJaccard` returns 0 when either argument is absent or empty; it is
symmetric on (duplicate-free) token sets; it maps every non-empty set paired
with itself to 1; and on `{a,b,c}` versus `{b,c,d}` it returns exactly 1/2. -/
theorem C6_jaccard_contract :
    (∀ b, getJaccard none b = 0) ∧ (∀ a, getJaccard a none = 0) ∧
    (∀ b, getJaccard (some []) b = 0) ∧ (∀ a, getJaccard a (some []) = 0) ∧
    (∀ la lb : Toks, la.Nodup → lb.Nodup →
      getJaccard (some la) (some lb) = getJaccard (some lb) (some la)) ∧
    (∀ la : Toks, la ≠ [] → getJaccard (some la) (some la) = 1) ∧
    getJaccard (some ["a", "b", "c"]) (some ["b", "c", "d"]) = 1 / 2 := by
  refine ⟨fun b => rfl, fun a => by cases a <;> rfl,
    fun b => by cases b <;> simp [getJaccard],
    fun a => by cases a <;> simp [getJaccard], ?_, ?_, ?_⟩
  · intro la lb ha hb
    by_cases hA : la.length = 0
    · simp only [getJaccard]
      rw [if_pos (Or.inl hA), if_pos (Or.inr hA)]
    by_cases hB : lb.length = 0
    · simp only [getJaccard]
      rw [if_pos (Or.inr hB), if_pos (Or.inl hB)]
    simp only [getJaccard]
    rw [if_neg (by tauto : ¬(la.length = 0 ∨ lb.length = 0)),
      if_neg (by tauto : ¬(lb.length = 0 ∨ la.length = 0))]
    rcases lt_trichotomy la.length lb.length with h | h | h
    · have h2 : ¬ lb.length < la.length := by omega
      simp only [if_pos h, if_neg h2]
      rw [Nat.add_comm la.length lb.length]
    · have h1 : ¬ la.length < lb.length := by omega
      have h2 : ¬ lb.length < la.length := by omega
      simp only [if_neg h1, if_neg h2]
      rw [countP_eq_inter_card la lb hb, countP_eq_inter_card lb la ha,
        Finset.inter_comm, Nat.add_comm la.length lb.length]
    · have h1 : ¬ la.length < lb.length := by omega
      simp only [if_neg h1, if_pos h]
      rw [Nat.add_comm la.length lb.length]
  · intro la hne
    have hl : la.length ≠ 0 := by simpa using hne
    simp only [getJaccard, ite_self]
    rw [if_neg (by tauto : ¬(la.length = 0 ∨ la.length = 0))]
    have hcount : la.countP (fun x => decide (x ∈ la)) = la.length := by
      rw [List.countP_eq_length]
      intro a hael
      simpa using hael
    rw [hcount]
    simp only [Nat.add_sub_cancel]
    rw [if_neg hl]
    exact div_self (by exact_mod_cast hl)
  · norm_num +decide [getJaccard, List.countP, List.countP.go]

theorem mem_foldl_insertOrdered (l : List String) :
    ∀ (init : List String) (t : String), t ∈ l.foldl insertOrdered init →
      t ∈ init ∨ t ∈ l := by
  induction l with
  | nil => intro init t h; exact Or.inl h
  | cons x xs ih =>
    intro init t h
    rcases ih (insertOrdered init x) t h with h' | h'
    · unfold insertOrdered at h'
      split at h'
      · exact Or.inl h'
      · rcases List.mem_append.1 h' with h'' | h''
        · exact Or.inl h''
        · simp at h''
          simp [h'']
    · simp [h']

theorem scanGo_sound :
    ∀ (chars : List Char) (st : Option (Char × List Char)),
      (match st with
        | none => True
        | some (c0, run) =>
          isAlnumLower c0 = true ∧ ∀ c ∈ run, isClassChar c = true) →
      ∀ t ∈ scanGo st chars,
        ∃ c0 run, t = tokStr c0 run ∧ isAlnumLower c0 = true ∧
          (∀ c ∈ run, isClassChar c = true) ∧ 2 ≤ run.length := by
  intro chars
  induction chars with
  | nil =>
    intro st hst t ht
    match st with
    | none => simp [scanGo] at ht
    | some (c0, run) =>
      simp only [scanGo] at ht
      split at ht
      · simp at ht
        exact ⟨c0, run, ht, hst.1, hst.2, by assumption⟩
      · simp at ht
  | cons c rest ih =>
    intro st hst t ht
    match st with
    | none =>
      simp only [scanGo] at ht
      split at ht
      · exact ih (some (c, [])) ⟨by assumption, by simp⟩ t ht
      · exact ih none trivial t ht
    | some (c0, run) =>
      simp only [scanGo] at ht
      split at ht
      · refine ih (some (c0, run ++ [c])) ⟨hst.1, ?_⟩ t ht
        intro d hd
        rcases List.mem_append.1 hd with h | h
        · exact hst.2 d h
        · simp at h
          subst h
          assumption
      · rcases List.mem_append.1 ht with h | h
        · split at h
          · simp at h
            exact ⟨c0, run, h, hst.1, hst.2, by assumption⟩
          · simp at h
        · exact ih none trivial t h

/-- C8 (amended): every token returned by `tokenize` is an alphanumeric-led
run over `[a-z0-9'-]` of length at least 3 — so leading hyphens/apostrophes
are impossible, but trailing ones are allowed by the greedy `{2,}` match —
and empty or absent input yields the empty set. -/
theorem C8_tokenize_amended :
    (tokenize none = [] ∧ tokenize (some "") = []) ∧
    ∀ (s : String), ∀ t ∈ tokenize (some s),
      3 ≤ t.length ∧
        ∃ c0 run, t = tokStr c0 run ∧ isAlnumLower c0 = true ∧
          (∀ c ∈ run, isClassChar c = true) ∧ 2 ≤ run.length := by
  refine ⟨⟨rfl, rfl⟩, ?_⟩
  intro s t ht
  by_cases hs : s = ""
  · subst hs
    simp [tokenize] at ht
  · simp only [tokenize, if_neg hs] at ht
    rcases mem_foldl_insertOrdered _ _ _ ht with h | h
    · simp at h
    · obtain ⟨c0, run, heq, hc0, hrun, hlen⟩ :=
        scanGo_sound (s.data.map jsToLower) none trivial t h
      refine ⟨?_, c0, run, heq, hc0, hrun, hlen⟩
      subst heq
      simp only [tokStr, String.length]
      simpa using by omega

/-- C8 (counterexample): on input `"abc-"` the source tokenizer returns the
token `"abc-"`, which ends in a hyphen — the claimed "no trailing hyphen or
apostrophe" shape is violated. -/
theorem C8_tokenize_counterexample :
    "abc-" ∈ tokenize (some "abc-") ∧
      "abc-".data.getLast? = some '-' := by constructor <;> decide

/-- C8 (witness). -/
theorem C8_tokenize_witness :
    "fox" ∈ tokenize (some "The quick brown fox") ∧
      3 ≤ "fox".length :=
  ⟨by decide,
    ((C8_tokenize_amended.2 "The quick brown fox" "fox") (by decide)).1⟩

/-- C6 (witness). -/
theorem C6_jaccard_contract_witness :
    (["x"] : Toks) ≠ [] ∧ getJaccard (some ["x"]) (some ["x"]) = 1 :=
  ⟨by decide, C6_jaccard_contract.2.2.2.2.2.1 ["x"] (by decide)⟩

/-- C4 (amended): a record with zero interactions — no reinforcements, no
reuse, at most 2 dismissals, at most 3 skips, quality below 4 and no recorded
revisit — gets engagement score exactly 0 (the source's own test suite
asserts this). -/
theorem C4_engagement_zero_amended (f : Fossil) (nowHour : ℤ)
    (hourOf : ℤ → ℤ) (h1 : f.reinforceCount = 0) (h2 : f.reuseCount = 0)
    (h3 : f.dismissCount ≤ 2) (h4 : f.skipCount ≤ 3) (h5 : f.quality < 4)
    (h6 : f.lastRevisitedAt = none) :
    calculateEngagementScore f nowHour hourOf = 0 := by
  simp only [calculateEngagementScore, h6, h1, h2]
  rw [if_neg (lt_irrefl 0), if_neg (lt_irrefl 0),
    if_neg (not_le.mpr h5), if_neg (not_lt.mpr h3), if_neg (not_lt.mpr h4)]

/-- A concrete record with zero interactions. -/
def zeroEngagementFossil : Fossil :=
  ⟨"f0", "some invariant text", "2025-01-01", 0, none, none, 3, 0, 0, 0, 0,
    false, none, none⟩

/-- C4 (counterexample): the zero-interaction record above satisfies every
hypothesis of the claim, yet `calculateEngagementScore` returns exactly 0 —
refuting "does not return exactly 0". -/
theorem C4_engagement_zero_counterexample :
    (zeroEngagementFossil.reinforceCount = 0 ∧
      zeroEngagementFossil.reuseCount = 0 ∧
      zeroEngagementFossil.dismissCount ≤ 2 ∧
      zeroEngagementFossil.skipCount ≤ 3 ∧
      zeroEngagementFossil.quality < 4 ∧
      zeroEngagementFossil.lastRevisitedAt = none) ∧
    calculateEngagementScore zeroEngagementFossil 0 (fun _ => 0) = 0 := by
  refine ⟨⟨rfl, rfl, by norm_num [zeroEngagementFossil],
    by norm_num [zeroEngagementFossil], by norm_num [zeroEngagementFossil],
    rfl⟩, ?_⟩
  norm_num [calculateEngagementScore, zeroEngagementFossil]

/-- A second concrete zero-interaction record, for the witness. -/
def zeroEngagementFossilW : Fossil :=
  ⟨"w0", "", "2025-01-02", 0, none, none, 2, 0, 0, 1, 2, false, none, none⟩

/-- C4 (witness). -/
theorem C4_engagement_zero_witness :
    (zeroEngagementFossilW.reinforceCount = 0 ∧
      zeroEngagementFossilW.reuseCount = 0 ∧
      zeroEngagementFossilW.dismissCount ≤ 2 ∧
      zeroEngagementFossilW.skipCount ≤ 3 ∧
      zeroEngagementFossilW.quality < 4 ∧
      zeroEngagementFossilW.lastRevisitedAt = none) ∧
    calculateEngagementScore zeroEngagementFossilW 5 (fun _ => 0) = 0 :=
  ⟨⟨rfl, rfl, by norm_num [zeroEngagementFossilW],
    by norm_num [zeroEngagementFossilW], by norm_num [zeroEngagementFossilW],
    rfl⟩,
    C4_engagement_zero_amended zeroEngagementFossilW 5 (fun _ => 0) rfl rfl
      (by norm_num [zeroEngagementFossilW])
      (by norm_num [zeroEngagementFossilW])
      (by norm_num [zeroEngagementFossilW]) rfl⟩

/-- A record whose `reentryOf` points at itself — the malformed relational
data the spec requires traversals to tolerate. -/
def cyclicFossil : Fossil :=
  ⟨"a", "cycle", "2025-01-01", 0, none, none, 2, 0, 0, 0, 0, false, none,
    some "a"⟩

theorem chainRoot_cyclic :
    ∀ n, chainRootF [cyclicFossil] n cyclicFossil = none := by
  intro n
  induction n with
  | zero => rfl
  | succ n ih =>
    calc chainRootF [cyclicFossil] (n + 1) cyclicFossil
        = chainRootF [cyclicFossil] n cyclicFossil := rfl
      _ = none := ih

/-- C2 (code bug): on a record whose `reentryOf` is its own id, the chain-root
walk of `findRelatedFossils` never exits — after any number `fuel` of loop
iterations it is still running (`none`), i.e. the JS `while` loop diverges
instead of being guarded by a visited set as the spec requires. -/
theorem C2_findRelated_cycle_diverges :
    ∀ fuel : ℕ,
      findRelatedFossilsF fuel cyclicFossil [cyclicFossil] (fun _ => none)
        defaultRelatedOptions = none := by
  intro fuel
  simp [findRelatedFossilsF, defaultRelatedOptions, chainRoot_cyclic fuel]

/-- The existing record of the spec's conflict-detection test property. -/
def decreaseFossil : Fossil :=
  ⟨"e1", "requirements should decrease efficiency", "2025-01-01", 0, none,
    none, 3, 0, 0, 0, 0, false, none, none⟩

/-- C5: the pair "requirements should increase efficiency" versus
"requirements should decrease efficiency" (similarity 3/5, inside the band,
no negation mismatch, antonym pair increase/decrease) is flagged with reason
exactly `"semantic"`; and every record in a `detectConflicts` result has
similarity at least `CONFLICT_THRESHOLD_MIN` = 0.25 to the new text, so
low-similarity records never appear. -/
theorem C5_conflict_semantic :
    (⟨decreaseFossil, 60, "semantic", [("increase", "decrease")]⟩ : Conflict) ∈
      detectConflicts "requirements should increase efficiency"
        [decreaseFossil] (fun _ => none) ∧
    ∀ (newText : String) (fossils : List Fossil) (idx : TokenIndex)
      (c : Conflict), c ∈ detectConflicts newText fossils idx →
        CONFLICT_THRESHOLD_MIN ≤
          getJaccard (some (tokenize (some newText)))
            (some (tokensOf idx c.fossil)) := by
  constructor
  · have htokA : tokenize (some "requirements should increase efficiency") =
        ["requirements", "should", "increase", "efficiency"] := by decide
    have htokB : tokensOf (fun _ => none) decreaseFossil =
        ["requirements", "should", "decrease", "efficiency"] := by decide
    have hjac :
        getJaccard (some ["requirements", "should", "increase", "efficiency"])
          (some ["requirements", "should", "decrease", "efficiency"]) =
          3 / 5 := by
      norm_num +decide [getJaccard, List.countP, List.countP.go]
    have hneg1 :
        hasNegation "requirements should increase efficiency" = false := by
      decide
    have hneg2 : hasNegation decreaseFossil.invariant = false := by decide
    have hopp :
        detectSemanticOpposition "requirements should increase efficiency"
          decreaseFossil.invariant = [("increase", "decrease")] := by decide
    have hround : jsRound ((3 : ℚ) / 5 * 100) = 60 := by
      rw [jsRound, Int.floor_eq_iff]
      · norm_num
    have hF :
        conflictFor "requirements should increase efficiency"
          (tokenize (some "requirements should increase efficiency"))
          (hasNegation "requirements should increase efficiency")
          (fun _ => none) decreaseFossil =
          some ⟨decreaseFossil, 60, "semantic", [("increase", "decrease")]⟩ := by
      simp only [conflictFor, htokA, htokB, hjac, hneg1, hneg2, hopp, hround]
      rw [if_neg (by decide),
        if_pos (by constructor <;>
          norm_num [CONFLICT_THRESHOLD_MIN, CONFLICT_THRESHOLD_MAX]),
        if_pos (by simp), if_neg (by simp)]
    simp [detectConflicts, List.filterMap_cons, hF, sortDesc, insertDesc]
  · intro newText fossils idx c hc
    unfold detectConflicts at hc
    rw [mem_sortDesc] at hc
    obtain ⟨a, _, heq⟩ := List.mem_filterMap.1 hc
    simp only [conflictFor] at heq
    split at heq
    · simp at heq
    · split at heq
      · split at heq
        · rename_i hband _
          obtain rfl := Option.some.inj heq
          exact hband.1
        · simp at heq
      · simp at heq

/-- C5 (witness). -/
theorem C5_conflict_semantic_witness :
    CONFLICT_THRESHOLD_MIN ≤
      getJaccard
        (some (tokenize (some "requirements should increase efficiency")))
        (some (tokensOf (fun _ => none)
          ((⟨decreaseFossil, 60, "semantic",
            [("increase", "decrease")]⟩ : Conflict).fossil))) :=
  C5_conflict_semantic.2 "requirements should increase efficiency"
    [decreaseFossil] (fun _ => none) _ C5_conflict_semantic.1

/-- C3 (amended): when exactly one record passes the eligibility filter and
its decay score is above the -900 cutoff (i.e. it is not carrying the -999
"younger than 7 days" sentinel), both resurface selectors return that record
for every value of the random draw, of `Math.exp` and of the context. -/
theorem C3_single_eligible_amended (fossils : List Fossil)
    (todayKey : String) (now : ℤ) (r : ℚ) (mlog mexp : ℚ → ℚ)
    (idx : TokenIndex) (ctx : Option String) (nowHour : ℤ)
    (hourOf : ℤ → ℤ) (f : Fossil)
    (helig : fossils.filter (eligibleForResurface todayKey now) = [f])
    (hscore : -900 < calculateDecayScore f fossils now mlog) :
    selectResurfaceFossil fossils todayKey now r mlog mexp = some f ∧
      selectContextualResurface fossils idx ctx todayKey now r mlog mexp
        nowHour hourOf = some f := by
  constructor
  · simp only [selectResurfaceFossil, helig]
    simp [List.filter_cons, hscore, sortDesc, insertDesc, pickLoop]
    split <;> simp
    all_goals
      rename_i g heq
      split at heq <;> simp_all
  · by_cases hctx : isTruthyOptStr ctx = true
    · simp only [selectContextualResurface, helig]
      simp [List.filter_cons, hscore, sortDesc, insertDesc, pickLoop, hctx]
      split <;> simp
      all_goals
        rename_i g heq
        split at heq <;> simp_all
    · simp only [selectContextualResurface, helig]
      simp [List.filter_cons, hscore, sortDesc, insertDesc, pickLoop, hctx]
      split <;> simp
      all_goals
        rename_i g heq
        split at heq <;> simp_all

/-- A single eligible record that is 0 days old (decay sentinel -999). -/
def youngFossil : Fossil :=
  ⟨"y1", "fresh idea", "2025-01-01", 0, none, none, 2, 0, 0, 0, 0, false,
    none, none⟩

/-- C3 (counterexample): this record is the only one passing the eligibility
filter, yet both selectors return `null` — its decay score is the -999
"younger than 7 days" sentinel, so the `score > -900` filter empties the
candidate list before the weighted pick. -/
theorem C3_single_eligible_counterexample :
    [youngFossil].filter (eligibleForResurface "2025-01-02" 0) =
        [youngFossil] ∧
      selectResurfaceFossil [youngFossil] "2025-01-02" 0 0 (fun _ => 0)
        (fun _ => 1) = none ∧
      selectContextualResurface [youngFossil] (fun _ => none) none
        "2025-01-02" 0 0 (fun _ => 0) (fun _ => 1) 0 (fun _ => 0) = none := by
  refine ⟨by decide, ?_, ?_⟩ <;>
    norm_num [selectResurfaceFossil, selectContextualResurface,
      eligibleForResurface, calculateDecayScore, youngFossil, isTruthyOptStr,
      List.filter_cons]

/-- A single eligible record that is exactly 7 days old. -/
def witnessFossil : Fossil :=
  ⟨"w1", "witness", "2025-01-01", 0, none, none, 2, 0, 0, 0, 0, false, none,
    none⟩

/-- C3 (witness). -/
theorem C3_single_eligible_witness :
    [witnessFossil].filter (eligibleForResurface "2025-01-09" 604800000) =
        [witnessFossil] ∧
      -900 < calculateDecayScore witnessFossil [witnessFossil] 604800000
        (fun _ => 0) ∧
      selectResurfaceFossil [witnessFossil] "2025-01-09" 604800000 (1 / 2)
        (fun _ => 0) (fun _ => 1) = some witnessFossil :=
  ⟨by decide,
    by
      have h : (none = some "w1") = False := by simp
      norm_num [calculateDecayScore, witnessFossil, jsOrQ, h],
    (C3_single_eligible_amended [witnessFossil] "2025-01-09" 604800000
      (1 / 2) (fun _ => 0) (fun _ => 1) (fun _ => none) none 0 (fun _ => 0)
      witnessFossil (by decide)
      (by
        have h : (none = some "w1") = False := by simp
        norm_num [calculateDecayScore, witnessFossil, jsOrQ, h])).1⟩

theorem mem_updateFirstById (id : String) (g : GNode → GNode) :
    ∀ ns : List GNode, ∀ x ∈ updateFirstById id g ns,
      ∃ m ∈ ns, x = m ∨ x = g m := by
  intro ns
  induction ns with
  | nil => intro x hx; simp [updateFirstById] at hx
  | cons n rest ih =>
    intro x hx
    simp only [updateFirstById] at hx
    split at hx
    · rcases List.mem_cons.1 hx with h | h
      · exact ⟨n, List.mem_cons_self n rest, Or.inr h⟩
      · exact ⟨x, List.mem_cons_of_mem n h, Or.inl rfl⟩
    · rcases List.mem_cons.1 hx with h | h
      · exact ⟨n, List.mem_cons_self n rest, Or.inl h⟩
      · obtain ⟨m, hm, hxm⟩ := ih x h
        exact ⟨m, List.mem_cons_of_mem n hm, hxm⟩

theorem mem_updateLastById (ns : List GNode) (id : String) (g : GNode → GNode)
    (x : GNode) (hx : x ∈ updateLastById ns id g) :
    ∃ m ∈ ns, x = m ∨ x = g m := by
  unfold updateLastById at hx
  rw [List.mem_reverse] at hx
  obtain ⟨m, hm, hxm⟩ := mem_updateFirstById id g ns.reverse x hx
  exact ⟨m, List.mem_reverse.1 hm, hxm⟩

theorem mem_dfsRun_nodes (adj : List (String × List String)) (k : ℕ) :
    ∀ (fuel : ℕ) (visited stack : List String) (ns : List GNode),
      ∀ x ∈ (dfsRun adj k fuel visited stack ns).2,
        ∃ m ∈ ns, x.fossil = m.fossil ∧ x.id = m.id := by
  intro fuel
  induction fuel with
  | zero => intro visited stack ns x hx; exact ⟨x, hx, rfl, rfl⟩
  | succ fuel ih =>
    intro visited stack ns x hx
    match stack with
    | [] => exact ⟨x, hx, rfl, rfl⟩
    | current :: rest =>
      simp only [dfsRun] at hx
      split at hx
      · exact ih visited rest ns x hx
      · obtain ⟨m, hm, hfm, him⟩ :=
          ih (current :: visited) (((mapGet adj current).getD []) ++ rest)
            (updateLastById ns current (fun n => { n with cluster := k })) x hx
        obtain ⟨m2, hm2, hmm2⟩ := mem_updateLastById ns current _ m hm
        rcases hmm2 with h | h <;>
          exact ⟨m2, hm2, by rw [hfm, h], by rw [him, h]⟩

theorem mem_assignClusters_nodes (adj : List (String × List String)) :
    ∀ (iter : List GNode) (visited : List String) (ns : List GNode) (k : ℕ),
      ∀ x ∈ (assignClusters adj iter visited ns k).1,
        ∃ m ∈ ns, x.fossil = m.fossil ∧ x.id = m.id := by
  intro iter
  induction iter with
  | nil => intro visited ns k x hx; exact ⟨x, hx, rfl, rfl⟩
  | cons node rest ih =>
    intro visited ns k x hx
    simp only [assignClusters] at hx
    split at hx
    · exact ih visited ns k x hx
    · obtain ⟨m, hm, hfm, him⟩ := ih _ _ _ x hx
      obtain ⟨m', hm', hfm', him'⟩ :=
        mem_dfsRun_nodes adj k (dfsFuel adj) visited [node.id] ns m hm
      exact ⟨m', hm', hfm.trans hfm', him.trans him'⟩

theorem mem_buildEdges (visibleFossils : List Fossil) (idx : TokenIndex) :
    ∀ l : List Fossil, (∀ f ∈ l, f ∈ visibleFossils) →
      ∀ e ∈ buildEdges visibleFossils idx l,
        (∃ f ∈ visibleFossils, f.id = e.source) ∧
          ∃ f ∈ visibleFossils, f.id = e.target := by
  intro l
  induction l with
  | nil => intro _ e he; simp [buildEdges] at he
  | cons fA rest ih =>
    intro hl e he
    simp only [buildEdges, List.mem_append] at he
    rcases he with (he | he) | he
    · unfold reentryEdges at he
      split at he
      · simp at he
      · split at he
        · simp at he
        · simp at he
          obtain ⟨⟨f, hf, hfid⟩, rfl⟩ := he
          exact ⟨⟨fA, hl fA (List.mem_cons_self fA rest), rfl⟩,
            ⟨f, hf, by simpa using hfid⟩⟩
    · obtain ⟨fB, hfB, heq⟩ := List.mem_filterMap.1 he
      dsimp only at heq
      split at heq
      · simp at heq
      · split at heq
        · obtain rfl := Option.some.inj heq
          exact ⟨⟨fA, hl fA (List.mem_cons_self fA rest), rfl⟩,
            ⟨fB, hl fB (List.mem_cons_of_mem fA hfB), rfl⟩⟩
        · simp at heq
    · exact ih (fun f hf => hl f (List.mem_cons_of_mem fA hf)) e he

/-- C1 (amended): `buildGraphData` excludes only deleted records: every node
carries a non-deleted input record, and both endpoints of every edge are ids
of non-deleted input records.  Records with non-null `supersededBy` are not
excluded (see the counterexample). -/
theorem C1_graph_excludes_deleted_only (fossils : List Fossil)
    (idx : TokenIndex) :
    (∀ n ∈ (buildGraphData fossils idx).nodes,
      n.fossil.deleted = false ∧ n.fossil ∈ fossils) ∧
    ∀ e ∈ (buildGraphData fossils idx).edges,
      (∃ f ∈ fossils, f.deleted = false ∧ f.id = e.source) ∧
        ∃ f ∈ fossils, f.deleted = false ∧ f.id = e.target := by
  constructor
  · intro n hn
    obtain ⟨m, hm, hfm, _⟩ := mem_assignClusters_nodes _ _ _ _ _ n hn
    obtain ⟨f, hf, rfl⟩ := List.mem_map.1 hm
    rw [List.mem_filter] at hf
    rw [hfm]
    exact ⟨by simpa using hf.2, hf.1⟩
  · intro e he
    have he' : e ∈ buildEdges (fossils.filter (fun f => !f.deleted)) idx
        (fossils.filter (fun f => !f.deleted)) := he
    obtain ⟨⟨f1, hf1, hid1⟩, f2, hf2, hid2⟩ :=
      mem_buildEdges _ idx _ (fun f hf => hf) e he'
    rw [List.mem_filter] at hf1 hf2
    exact ⟨⟨f1, hf1.1, by simpa using hf1.2, hid1⟩,
      ⟨f2, hf2.1, by simpa using hf2.2, hid2⟩⟩

/-- A non-deleted record that has been superseded. -/
def supersededA : Fossil :=
  ⟨"a", "alpha beta gamma", "2025-01-01", 0, none, none, 2, 0, 0, 0, 0,
    false, some "x", none⟩

/-- A second non-deleted superseded record with the same token set. -/
def supersededB : Fossil :=
  ⟨"b", "alpha beta gamma", "2025-01-01", 0, none, none, 2, 0, 0, 0, 0,
    false, some "y", none⟩

/-- A token index for the two records above. -/
def idxAB : TokenIndex := fun s =>
  if s = "a" then some ["alpha", "beta", "gamma"]
  else if s = "b" then some ["alpha", "beta", "gamma"]
  else none

set_option maxRecDepth 4000 in
/-- C1 (counterexample): both records have non-null `supersededBy`, yet
`buildGraphData` produces a node for each and a semantic edge between them —
superseded records are not excluded from the graph operation. -/
theorem C1_superseded_not_excluded_counterexample :
    isTruthyOptStr supersededA.supersededBy = true ∧
      isTruthyOptStr supersededB.supersededBy = true ∧
      (buildGraphData [supersededA, supersededB] idxAB).nodes.map
          (fun n => n.fossil) = [supersededA, supersededB] ∧
      (buildGraphData [supersededA, supersededB] idxAB).edges.map
          (fun e => (e.source, e.target, e.etype)) =
        [("a", "b", "semantic")] := by
  refine ⟨rfl, rfl, ?_, ?_⟩ <;>
    norm_num +decide [buildGraphData, buildEdges, semanticEdges,
      reentryEdges, mkGraphNode, edgeAdjacency, assignClusters, dfsRun,
      dfsFuel, mapGet, mapSet, updateLastById, updateFirstById, getLastById,
      getJaccard, List.countP, List.countP.go, idxAB, supersededA,
      supersededB, SEMANTIC_EDGE_THRESHOLD, jsOrQ, isTruthyOptStr,
      List.filterMap_cons, List.filterMap_nil, List.map_cons, List.map_nil,
      List.any_cons, List.any_nil, List.foldl_cons, List.foldl_nil,
      List.sum_cons, List.sum_nil, List.length_cons, List.length_nil,
      List.reverse_cons, List.reverse_nil, List.find?_cons, List.find?_nil]

/-- A plain visible record for the C1 witness. -/
def plainFossil : Fossil :=
  ⟨"p1", "plain", "2025-01-01", 0, none, none, 2, 0, 0, 0, 0, false, none,
    none⟩

set_option maxRecDepth 4000 in
/-- C1 (witness). -/
theorem C1_graph_excludes_deleted_only_witness :
    { mkGraphNode plainFossil with cluster := 0 } ∈
        (buildGraphData [plainFossil] (fun _ => none)).nodes ∧
      ({ mkGraphNode plainFossil with cluster := 0 } : GNode).fossil.deleted =
        false :=
  ⟨by
    norm_num +decide [buildGraphData, buildEdges, semanticEdges,
      reentryEdges, mkGraphNode, edgeAdjacency, assignClusters, dfsRun,
      dfsFuel, mapGet, mapSet, updateLastById, updateFirstById, plainFossil,
      isTruthyOptStr, jsOrQ],
    ((C1_graph_excludes_deleted_only [plainFossil] (fun _ => none)).1 _
      (by
        norm_num +decide [buildGraphData, buildEdges, semanticEdges,
          reentryEdges, mkGraphNode, edgeAdjacency, assignClusters, dfsRun,
          dfsFuel, mapGet, mapSet, updateLastById, updateFirstById,
          plainFossil, isTruthyOptStr, jsOrQ])).1⟩

theorem bfsRun_visited_mono (adj : AdjList) :
    ∀ (fuel : ℕ) (visited queue cluster : List String),
      ∀ x ∈ visited, x ∈ (bfsRun adj fuel visited queue cluster).2 := by
  intro fuel
  induction fuel with
  | zero => intro visited queue cluster x hx; exact hx
  | succ fuel ih =>
    intro visited queue cluster x hx
    match queue with
    | [] => exact hx
    | current :: rest =>
      simp only [bfsRun]
      split
      · exact ih visited rest cluster x hx
      · exact ih _ _ _ x (List.mem_cons_of_mem current hx)

theorem bfsRun_cluster_spec (adj : AdjList) :
    ∀ (fuel : ℕ) (visited queue cluster : List String),
      ∀ x ∈ (bfsRun adj fuel visited queue cluster).1,
        x ∈ cluster ∨ (x ∉ visited ∧ x ∈ (bfsRun adj fuel visited queue cluster).2) := by
  intro fuel
  induction fuel with
  | zero => intro visited queue cluster x hx; exact Or.inl hx
  | succ fuel ih =>
    intro visited queue cluster x hx
    match queue with
    | [] => exact Or.inl hx
    | current :: rest =>
      simp only [bfsRun] at hx ⊢
      split at hx
      · rename_i hcur
        split
        · exact ih visited rest cluster x hx
        · rename_i hcur'
          exact absurd hcur hcur'
      · rename_i hcur
        split
        · rename_i hcur'
          exact absurd hcur' hcur
        · rcases ih _ _ _ x hx with hmem | ⟨hnv, hv⟩
          · rcases List.mem_append.1 hmem with h | h
            · exact Or.inl h
            · simp only [List.mem_singleton] at h
              subst h
              refine Or.inr ⟨hcur, ?_⟩
              exact bfsRun_visited_mono adj fuel _ _ _ x
                (List.mem_cons_self x visited)
          · refine Or.inr ⟨fun hxv => hnv (List.mem_cons_of_mem current hxv), hv⟩

/-- The pairwise relation "no id of the first cluster appears in the second". -/
def ClustersDisjoint (c1 c2 : Cluster) : Prop :=
  ∀ x ∈ c1.ids, x ∉ c2.ids

theorem clustersDisjoint_symm : Symmetric ClustersDisjoint := by
  intro c1 c2 h x hx2 hx1
  exact h x hx1 hx2

theorem clustersLoop_spec (adj : AdjList) (validFossils : List Fossil)
    (idx : TokenIndex) (minCS : ℕ) :
    ∀ (rest : List Fossil) (visited : List String) (acc : List Cluster),
      (∀ c ∈ acc, ∀ x ∈ c.ids, x ∈ visited) →
      List.Pairwise ClustersDisjoint acc →
      (∀ c ∈ acc, minCS ≤ c.ids.length ∧ c.size = c.ids.length) →
      List.Pairwise ClustersDisjoint
          (clustersLoop adj validFossils idx minCS rest visited acc) ∧
        ∀ c ∈ clustersLoop adj validFossils idx minCS rest visited acc,
          minCS ≤ c.ids.length ∧ c.size = c.ids.length := by
  intro rest
  induction rest with
  | nil => intro visited acc _ hpw hsz; exact ⟨hpw, hsz⟩
  | cons f rest ih =>
    intro visited acc hsub hpw hsz
    simp only [clustersLoop]
    split
    · exact ih visited acc hsub hpw hsz
    · split
      · rename_i hguard
        refine ih _ _ ?_ ?_ ?_
        · intro c hc x hx
          rcases List.mem_append.1 hc with h | h
          · exact bfsRun_visited_mono adj _ _ _ _ x (hsub c h x hx)
          · simp only [List.mem_singleton] at h
            subst h
            rcases bfsRun_cluster_spec adj _ _ _ _ x hx with h | ⟨_, h⟩
            · simp at h
            · exact h
        · rw [List.pairwise_append]
          refine ⟨hpw, List.pairwise_singleton _ _, ?_⟩
          intro c1 hc1 c2 hc2
          simp only [List.mem_singleton] at hc2
          subst hc2
          intro x hx1 hx2
          rcases bfsRun_cluster_spec adj _ _ _ _ x hx2 with h | ⟨hnv, _⟩
          · simp at h
          · exact hnv (hsub c1 hc1 x hx1)
        · intro c hc
          rcases List.mem_append.1 hc with h | h
          · exact hsz c h
          · simp only [List.mem_singleton] at h
            subst h
            exact ⟨hguard, rfl⟩
      · refine ih _ _ ?_ hpw hsz
        intro c hc x hx
        exact bfsRun_visited_mono adj _ _ _ _ x (hsub c hc x hx)

/-- C9: the clusters returned by `detectClusters` are pairwise disjoint (each
record id belongs to the ids of at most one returned cluster) and every
returned cluster has at least `minClusterSize` members. -/
theorem C9_clusters_disjoint_min_size (fossils : List Fossil)
    (idx : TokenIndex) (minClusterSize : ℕ) (minSimilarity : ℚ) :
    List.Pairwise ClustersDisjoint
        (detectClusters fossils idx minClusterSize minSimilarity) ∧
      ∀ c ∈ detectClusters fossils idx minClusterSize minSimilarity,
        minClusterSize ≤ c.ids.length ∧ c.size = c.ids.length := by
  unfold detectClusters
  dsimp only
  by_cases hlen :
    (fossils.filter
      (fun f => !f.deleted && !isTruthyOptStr f.supersededBy)).length <
      minClusterSize
  · simp [hlen]
  · simp only [if_neg hlen]
    have hspec := clustersLoop_spec
      (buildAdjacency
        (fossils.filter (fun f => !f.deleted && !isTruthyOptStr f.supersededBy))
        idx minSimilarity 0
        (fossils.filter (fun f => !f.deleted && !isTruthyOptStr f.supersededBy))
        [])
      (fossils.filter (fun f => !f.deleted && !isTruthyOptStr f.supersededBy))
      idx minClusterSize
      (fossils.filter (fun f => !f.deleted && !isTruthyOptStr f.supersededBy))
      [] [] (by simp) (by simp) (by simp)
    constructor
    · exact ((perm_sortDesc _ _).pairwise_iff (fun h => clustersDisjoint_symm h)).2 hspec.1
    · intro c hc
      exact hspec.2 c ((mem_sortDesc _ _ _).1 hc)

/-- A record for the C9 witness. -/
def clusterFossilW : Fossil :=
  ⟨"c1", "", "2025-01-01", 0, none, none, 2, 0, 0, 0, 0, false, none, none⟩

/-- C9 (witness). -/
theorem C9_clusters_disjoint_min_size_witness :
    (⟨["c1"], 1, [], [clusterFossilW]⟩ : Cluster) ∈
        detectClusters [clusterFossilW] (fun _ => none) 1 (1 / 2) ∧
      1 ≤ (⟨["c1"], 1, [], [clusterFossilW]⟩ : Cluster).ids.length ∧
        (⟨["c1"], 1, [], [clusterFossilW]⟩ : Cluster).size =
          (⟨["c1"], 1, [], [clusterFossilW]⟩ : Cluster).ids.length :=
  have hmem : (⟨["c1"], 1, [], [clusterFossilW]⟩ : Cluster) ∈
      detectClusters [clusterFossilW] (fun _ => none) 1 (1 / 2) := by
    norm_num +decide [detectClusters, buildAdjacency, neighborRow,
      clustersLoop, bfsRun, bfsFuel, mapGet, mapSet, clusterTheme, tokensOf,
      sortDesc, insertDesc, clusterFossilW, isTruthyOptStr,
      List.filter_cons, List.filter_nil, List.find?_cons, List.find?_nil,
      List.filterMap_cons, List.filterMap_nil, List.foldl_cons,
      List.foldl_nil, List.map_cons, List.map_nil, List.sum_cons,
      List.sum_nil]
  ⟨hmem,
    (C9_clusters_disjoint_min_size [clusterFossilW] (fun _ => none) 1
      (1 / 2)).2 _ hmem⟩

theorem foldl_min_le (l : List ℚ) :
    ∀ a : ℚ, List.foldl min a l ≤ a ∧ ∀ x ∈ l, List.foldl min a l ≤ x := by
  induction l with
  | nil => intro a; simp
  | cons y ys ih =>
    intro a
    have h := ih (min a y)
    refine ⟨h.1.trans (min_le_left a y), ?_⟩
    intro x hx
    rcases List.mem_cons.1 hx with rfl | hx
    · exact h.1.trans (min_le_right a x)
    · exact h.2 x hx

theorem le_foldl_max (l : List ℚ) :
    ∀ a : ℚ, a ≤ List.foldl max a l ∧ ∀ x ∈ l, x ≤ List.foldl max a l := by
  induction l with
  | nil => intro a; simp
  | cons y ys ih =>
    intro a
    have h := ih (max a y)
    refine ⟨(le_max_left a y).trans h.1, ?_⟩
    intro x hx
    rcases List.mem_cons.1 hx with rfl | hx
    · exact (le_max_right a x).trans h.1
    · exact h.2 x hx

theorem listMin_le (l : List ℚ) (x : ℚ) (hx : x ∈ l) : listMin l ≤ x := by
  match l with
  | [] => simp at hx
  | a :: rest =>
    rcases List.mem_cons.1 hx with rfl | hx
    · exact (foldl_min_le rest x).1
    · exact (foldl_min_le rest a).2 x hx

theorem le_listMax (l : List ℚ) (x : ℚ) (hx : x ∈ l) : x ≤ listMax l := by
  match l with
  | [] => simp at hx
  | a :: rest =>
    rcases List.mem_cons.1 hx with rfl | hx
    · exact (le_foldl_max rest x).1
    · exact (le_foldl_max rest a).2 x hx

theorem normalize_bounds (ns : List GNode) (w h : ℚ) (hw : 80 ≤ w)
    (hh : 80 ≤ h) :
    ∀ n ∈ normalizeNodes ns w h, 0 ≤ n.x ∧ n.x ≤ w ∧ 0 ≤ n.y ∧ n.y ≤ h := by
  intro n hn
  simp only [normalizeNodes] at hn
  obtain ⟨m, hm, rfl⟩ := List.mem_map.1 hn
  dsimp only
  set minX := listMin (ns.map (fun n => n.x)) with hminXdef
  set maxX := listMax (ns.map (fun n => n.x)) with hmaxXdef
  set minY := listMin (ns.map (fun n => n.y)) with hminYdef
  set maxY := listMax (ns.map (fun n => n.y)) with hmaxYdef
  set sX : ℚ := if 0 < maxX - minX then (w - 40 * 2) / (maxX - minX) else 1
    with hsXdef
  set sY : ℚ := if 0 < maxY - minY then (h - 40 * 2) / (maxY - minY) else 1
    with hsYdef
  have hmx1 : minX ≤ m.x := listMin_le _ _ (List.mem_map_of_mem _ hm)
  have hmx2 : m.x ≤ maxX := le_listMax _ _ (List.mem_map_of_mem _ hm)
  have hmy1 : minY ≤ m.y := listMin_le _ _ (List.mem_map_of_mem _ hm)
  have hmy2 : m.y ≤ maxY := le_listMax _ _ (List.mem_map_of_mem _ hm)
  have hsX0 : 0 ≤ sX := by
    rw [hsXdef]
    split
    · exact div_nonneg (by linarith) (by linarith)
    · norm_num
  have hsY0 : 0 ≤ sY := by
    rw [hsYdef]
    split
    · exact div_nonneg (by linarith) (by linarith)
    · norm_num
  have hscale0 : (0 : ℚ) ≤ min (min sX sY) 1 :=
    le_min (le_min hsX0 hsY0) (by norm_num)
  have hboundx : (m.x - minX) * min (min sX sY) 1 ≤ w - 40 * 2 := by
    by_cases hdx : 0 < maxX - minX
    · have h1 : (m.x - minX) * min (min sX sY) 1 ≤
          (maxX - minX) * min (min sX sY) 1 :=
        mul_le_mul_of_nonneg_right (by linarith) hscale0
      have h2 : (maxX - minX) * min (min sX sY) 1 ≤ (maxX - minX) * sX :=
        mul_le_mul_of_nonneg_left
          ((min_le_left _ _).trans (min_le_left _ _)) hdx.le
      have h3 : (maxX - minX) * sX = w - 40 * 2 := by
        rw [hsXdef, if_pos hdx, mul_div_cancel₀ _ (ne_of_gt hdx)]
      linarith
    · have hx0 : m.x - minX = 0 := le_antisymm (by linarith) (by linarith)
      rw [hx0, zero_mul]
      linarith
  have hboundy : (m.y - minY) * min (min sX sY) 1 ≤ h - 40 * 2 := by
    by_cases hdy : 0 < maxY - minY
    · have h1 : (m.y - minY) * min (min sX sY) 1 ≤
          (maxY - minY) * min (min sX sY) 1 :=
        mul_le_mul_of_nonneg_right (by linarith) hscale0
      have h2 : (maxY - minY) * min (min sX sY) 1 ≤ (maxY - minY) * sY :=
        mul_le_mul_of_nonneg_left
          ((min_le_left _ _).trans (min_le_right _ _)) hdy.le
      have h3 : (maxY - minY) * sY = h - 40 * 2 := by
        rw [hsYdef, if_pos hdy, mul_div_cancel₀ _ (ne_of_gt hdy)]
      linarith
    · have hy0 : m.y - minY = 0 := le_antisymm (by linarith) (by linarith)
      rw [hy0, zero_mul]
      linarith
  have hprodx : 0 ≤ (m.x - minX) * min (min sX sY) 1 :=
    mul_nonneg (by linarith) hscale0
  have hprody : 0 ≤ (m.y - minY) * min (min sX sY) 1 :=
    mul_nonneg (by linarith) hscale0
  refine ⟨by linarith, by linarith, by linarith, by linarith⟩

/-- C7 (amended): for every non-empty node list and viewport at least twice
the 40-pixel padding in each dimension, every coordinate produced by
`layoutGraph` lies within `[0, width] × [0, height]` (in fact within the
padded box); and with zero nodes `layoutGraph` returns the empty list
unchanged.  For smaller viewports the bound fails (see the
counterexample). -/
theorem C7_layout_bounds (nodes : List GNode) (edges : List GEdge)
    (w h : ℚ) (iterations : ℕ) (mcos msin msqrt : ℚ → ℚ) (pi : ℚ) :
    (nodes ≠ [] → 80 ≤ w → 80 ≤ h →
      ∀ n ∈ layoutGraph nodes edges w h iterations mcos msin msqrt pi,
        0 ≤ n.x ∧ n.x ≤ w ∧ 0 ≤ n.y ∧ n.y ≤ h) ∧
    layoutGraph [] edges w h iterations mcos msin msqrt pi = [] := by
  constructor
  · intro hne hw hh n hn
    unfold layoutGraph at hn
    rw [if_neg (fun hlen => hne (List.length_eq_zero.1 hlen))] at hn
    exact normalize_bounds _ w h hw hh n hn
  · rfl

/-- The single input node used for the layout counterexample and witness. -/
def layoutNodeIn : GNode := ⟨"n", 8, "", plainFossil, 0, 0, 0, none, none⟩

theorem simStep_single_gen (msqrt : ℚ → ℚ) (temp x y : ℚ)
    (vx vy : Option ℚ) (hvx : vx.getD 0 = 0) (hvy : vy.getD 0 = 0) :
    simStep msqrt [] temp [⟨"n", 8, "", plainFossil, 0, x, y, vx, vy⟩] =
      [⟨"n", 8, "", plainFossil, 0, x, y, some 0, some 0⟩] := by
  simp [simStep, repulsionPhase, attractionPhase, integratePhase, hvx, hvy]

theorem simLoop_single_gen (msqrt : ℚ → ℚ) (total : ℕ) (x y : ℚ) :
    ∀ k, simLoop msqrt [] total k
        [⟨"n", 8, "", plainFossil, 0, x, y, some 0, some 0⟩] =
      [⟨"n", 8, "", plainFossil, 0, x, y, some 0, some 0⟩] := by
  intro k
  induction k with
  | zero => rfl
  | succ k ih =>
    simp only [simLoop]
    rw [simStep_single_gen msqrt _ x y (some 0) (some 0) rfl rfl, ih]

theorem simLoop_single_none (msqrt : ℚ → ℚ) (total : ℕ) (x y : ℚ) :
    ∀ k, k ≠ 0 → simLoop msqrt [] total k
        [⟨"n", 8, "", plainFossil, 0, x, y, none, none⟩] =
      [⟨"n", 8, "", plainFossil, 0, x, y, some 0, some 0⟩] := by
  intro k hk
  match k with
  | j + 1 =>
    simp only [simLoop]
    rw [simStep_single_gen msqrt _ x y none none rfl rfl,
      simLoop_single_gen]

/-- C7 (counterexample): with viewport `0 × 0` (smaller than twice the
padding), a single node is laid out at `(40, 40)`, outside `[0, 0] × [0, 0]`
— the claimed bound does not hold for every width and height. -/
theorem C7_layout_bounds_counterexample :
    (layoutGraph [layoutNodeIn] [] 0 0 80 (fun _ => 1) (fun _ => 0)
        (fun _ => 0) 0).map (fun n => (n.x, n.y)) = [((40 : ℚ), (40 : ℚ))] ∧
      ¬((40 : ℚ) ≤ 0) := by
  constructor
  · have hinit : initNodes 0 0 0 (fun _ => 1) (fun _ => 0) 1 0
        [layoutNodeIn] =
        [⟨"n", 8, "", plainFossil, 0, 0, 0, none, none⟩] := by
      norm_num [initNodes, layoutNodeIn]
    unfold layoutGraph
    rw [if_neg (by simp : ¬([layoutNodeIn].length = 0))]
    show (normalizeNodes
      (simLoop _ [] _ _ (initNodes _ _ _ _ _ _ _ _)) _ _).map _ = _
    rw [show [layoutNodeIn].length = 1 from rfl, hinit,
      simLoop_single_none (fun _ => 0) 80 0 0 80 (by norm_num)]
    norm_num [normalizeNodes, listMin, listMax]
  · norm_num

/-- The node produced by the witness layout run. -/
def layoutNodeW : GNode := ⟨"n", 8, "", plainFossil, 0, 40, 40, none, none⟩

/-- C7 (witness). -/
theorem C7_layout_bounds_witness :
    layoutNodeW ∈ layoutGraph [layoutNodeIn] [] 100 100 1 (fun _ => 1)
        (fun _ => 0) (fun _ => 0) 0 ∧
      0 ≤ layoutNodeW.x ∧ layoutNodeW.x ≤ 100 ∧ 0 ≤ layoutNodeW.y ∧
        layoutNodeW.y ≤ 100 := by
  have hinit : initNodes 100 100 0 (fun _ => 1) (fun _ => 0) 1 0
      [layoutNodeIn] =
      [⟨"n", 8, "", plainFossil, 0, 85, 50, none, none⟩] := by
    norm_num [initNodes, layoutNodeIn]
  have hres : layoutGraph [layoutNodeIn] [] 100 100 1 (fun _ => 1)
      (fun _ => 0) (fun _ => 0) 0 = [layoutNodeW] := by
    unfold layoutGraph
    rw [if_neg (by simp : ¬([layoutNodeIn].length = 0))]
    show normalizeNodes
      (simLoop _ [] _ _ (initNodes _ _ _ _ _ _ _ _)) _ _ = _
    rw [show [layoutNodeIn].length = 1 from rfl, hinit,
      simLoop_single_none (fun _ => 0) 1 85 50 1 (by norm_num)]
    norm_num [normalizeNodes, listMin, listMax, layoutNodeW]
  constructor
  · rw [hres]
    exact List.mem_singleton_self _
  · exact (C7_layout_bounds [layoutNodeIn] [] 100 100 1 (fun _ => 1)
      (fun _ => 0) (fun _ => 0) 0).1 (by simp [layoutNodeIn]) (by norm_num)
      (by norm_num) layoutNodeW
      (by rw [hres]; exact List.mem_singleton_self _)

/-- The fields of a graph node that `layoutGraph` must not touch. -/
def sameStatic (a b : GNode) : Prop :=
  a.id = b.id ∧ a.size = b.size ∧ a.label = b.label ∧
    a.cluster = b.cluster ∧ a.fossil = b.fossil

theorem sameStatic_refl (a : GNode) : sameStatic a a :=
  ⟨rfl, rfl, rfl, rfl, rfl⟩

theorem sameStatic_trans {a b c : GNode} (h1 : sameStatic a b)
    (h2 : sameStatic b c) : sameStatic a c :=
  ⟨h1.1.trans h2.1, h1.2.1.trans h2.2.1, h1.2.2.1.trans h2.2.2.1,
    h1.2.2.2.1.trans h2.2.2.2.1, h1.2.2.2.2.trans h2.2.2.2.2⟩

theorem forall2_static_trans :
    ∀ {l1 l2 l3 : List GNode}, List.Forall₂ sameStatic l1 l2 →
      List.Forall₂ sameStatic l2 l3 → List.Forall₂ sameStatic l1 l3 := by
  intro l1 l2 l3 h1 h2
  induction h1 generalizing l3 with
  | nil =>
    cases h2
    exact List.Forall₂.nil
  | cons hab h1' ih =>
    cases h2 with
    | cons hbc h2' => exact List.Forall₂.cons (sameStatic_trans hab hbc) (ih h2')

theorem forall2_static_map (g : GNode → GNode)
    (hg : ∀ n, sameStatic n (g n)) :
    ∀ l : List GNode, List.Forall₂ sameStatic l (l.map g) := by
  intro l
  induction l with
  | nil => exact List.Forall₂.nil
  | cons n rest ih => exact List.Forall₂.cons (hg n) ih

theorem forall2_static_updateFirst (id : String) (g : GNode → GNode)
    (hg : ∀ n, sameStatic n (g n)) :
    ∀ l : List GNode, List.Forall₂ sameStatic l (updateFirstById id g l) := by
  intro l
  induction l with
  | nil => exact List.Forall₂.nil
  | cons n rest ih =>
    simp only [updateFirstById]
    split
    · exact List.Forall₂.cons (hg n) (List.forall₂_same.2 (fun x _ => sameStatic_refl x))
    · exact List.Forall₂.cons (sameStatic_refl n) ih

theorem forall2_static_updateLast (l : List GNode) (id : String)
    (g : GNode → GNode) (hg : ∀ n, sameStatic n (g n)) :
    List.Forall₂ sameStatic l (updateLastById l id g) := by
  unfold updateLastById
  rw [← List.forall₂_reverse_iff, List.reverse_reverse]
  exact forall2_static_updateFirst id g hg l.reverse

theorem forall2_static_initNodes (w h pi : ℚ) (mcos msin : ℚ → ℚ) (n : ℕ) :
    ∀ (i : ℕ) (l : List GNode),
      List.Forall₂ sameStatic l (initNodes w h pi mcos msin n i l) := by
  intro i l
  induction l generalizing i with
  | nil => exact List.Forall₂.nil
  | cons node rest ih =>
    exact List.Forall₂.cons ⟨rfl, rfl, rfl, rfl, rfl⟩ (ih (i + 1))

theorem forall2_static_repulsion (msqrt : ℚ → ℚ) (temp : ℚ)
    (l : List GNode) :
    List.Forall₂ sameStatic l (repulsionPhase msqrt temp l) := by
  unfold repulsionPhase
  apply forall2_static_map
  intro n
  exact ⟨rfl, rfl, rfl, rfl, rfl⟩

theorem forall2_static_attraction (msqrt : ℚ → ℚ) (temp : ℚ)
    (edges : List GEdge) :
    ∀ l : List GNode,
      List.Forall₂ sameStatic l (attractionPhase msqrt temp edges l) := by
  unfold attractionPhase
  induction edges with
  | nil =>
    intro l
    exact List.forall₂_same.2 (fun x _ => sameStatic_refl x)
  | cons e rest ih =>
    intro l
    simp only [List.foldl_cons]
    refine forall2_static_trans ?_ (ih _)
    split
    · refine forall2_static_trans
        (forall2_static_updateLast l e.source _ ?_)
        (forall2_static_updateLast _ e.target _ ?_) <;>
        exact fun n => ⟨rfl, rfl, rfl, rfl, rfl⟩
    · exact List.forall₂_same.2 (fun x _ => sameStatic_refl x)

theorem forall2_static_integrate (l : List GNode) :
    List.Forall₂ sameStatic l (integratePhase l) := by
  unfold integratePhase
  apply forall2_static_map
  intro n
  exact ⟨rfl, rfl, rfl, rfl, rfl⟩

theorem forall2_static_simStep (msqrt : ℚ → ℚ) (edges : List GEdge)
    (temp : ℚ) (l : List GNode) :
    List.Forall₂ sameStatic l (simStep msqrt edges temp l) :=
  forall2_static_trans (forall2_static_repulsion msqrt temp l)
    (forall2_static_trans
      (forall2_static_attraction msqrt temp edges _)
      (forall2_static_integrate _))

theorem forall2_static_simLoop (msqrt : ℚ → ℚ) (edges : List GEdge)
    (iterations : ℕ) :
    ∀ (k : ℕ) (l : List GNode),
      List.Forall₂ sameStatic l (simLoop msqrt edges iterations k l) := by
  intro k
  induction k with
  | zero => intro l; exact List.forall₂_same.2 (fun x _ => sameStatic_refl x)
  | succ k ih =>
    intro l
    simp only [simLoop]
    exact forall2_static_trans (forall2_static_simStep msqrt edges _ l) (ih _)

theorem forall2_static_normalize (l : List GNode) (w h : ℚ) :
    List.Forall₂ sameStatic l (normalizeNodes l w h) := by
  unfold normalizeNodes
  apply forall2_static_map
  intro n
  exact ⟨rfl, rfl, rfl, rfl, rfl⟩

theorem normalize_velocity_deleted (l : List GNode) (w h : ℚ) :
    ∀ n ∈ normalizeNodes l w h, n.vx = none ∧ n.vy = none := by
  intro n hn
  simp only [normalizeNodes] at hn
  obtain ⟨m, _, rfl⟩ := List.mem_map.1 hn
  exact ⟨rfl, rfl⟩

/-- C10: on every non-empty node list, `layoutGraph` changes only the
positions: each output node keeps its input `id`, `size`, `label`, `cluster`
and `fossil` (pointwise along the list), and the temporary velocity fields
`vx`/`vy` are absent from every output node. -/
theorem C10_layout_frame (nodes : List GNode) (edges : List GEdge)
    (w h : ℚ) (iterations : ℕ) (mcos msin msqrt : ℚ → ℚ) (pi : ℚ)
    (hne : nodes ≠ []) :
    List.Forall₂ sameStatic nodes
        (layoutGraph nodes edges w h iterations mcos msin msqrt pi) ∧
      ∀ n ∈ layoutGraph nodes edges w h iterations mcos msin msqrt pi,
        n.vx = none ∧ n.vy = none := by
  unfold layoutGraph
  rw [if_neg (fun hlen => hne (List.length_eq_zero.1 hlen))]
  constructor
  · exact forall2_static_trans
      (forall2_static_initNodes w h pi mcos msin nodes.length 0 nodes)
      (forall2_static_trans
        (forall2_static_simLoop msqrt edges iterations iterations _)
        (forall2_static_normalize _ w h))
  · exact normalize_velocity_deleted _ w h

/-- C10 (witness). -/
theorem C10_layout_frame_witness :
    List.Forall₂ sameStatic [layoutNodeIn]
        (layoutGraph [layoutNodeIn] [] 120 90 2 (fun _ => 1) (fun _ => 0)
          (fun _ => 0) 0) ∧
      ∀ n ∈ layoutGraph [layoutNodeIn] [] 120 90 2 (fun _ => 1) (fun _ => 0)
          (fun _ => 0) 0, n.vx = none ∧ n.vy = none :=
  C10_layout_frame [layoutNodeIn] [] 120 90 2 (fun _ => 1) (fun _ => 0)
    (fun _ => 0) 0 (by simp [layoutNodeIn])
